import Mathlib

/-!
Shallow embedding of `lidartools/annotations.py`.

Conventions of the embedding:

* An instant (`np.datetime64` / `datetime.datetime`) is modelled as an
  integer count of microseconds since the epoch (`Int`), matching the
  microsecond resolution the code forces with `astype("<M8[us]")`.
* A duration (`datetime.timedelta` / `np.timedelta64`) is likewise an
  integer count of microseconds, except where the code converts it to
  coarser units (seconds, milliseconds), which we model at the point of
  conversion.
* `datetime.datetime(year=d.year, month=d.month, day=d.day)` truncates an
  instant to 00:00 of its calendar day; on microsecond counts this is
  flooring to a multiple of 86400000000.
* numpy's unit conversion for `timedelta64` values
  (`cast_timedelta_to_timedelta` in numpy's `datetime.c`) scales by a
  factor `num/denom` and floors: for a negative source value it computes
  `(src*num - (denom-1)) / denom` with C (truncating) division, which is
  floor division.  We embed that code path verbatim.
* numpy's float→int `astype(int)` is a C cast: truncation toward zero.
* Python floats are modelled as exact rationals (`ℚ`); every concrete
  input used in a counterexample below is a dyadic rational small enough
  that the corresponding IEEE-754 double computation is exact.
* The matplotlib glue (`num2date`/`date2num`, axis registration) converts
  between instants and float day numbers at the boundary; it is rendering
  machinery outside the specified core, so the transforms are modelled
  directly on instants, as the spec itself presents them.
-/

/-- Kind of a solar event: the code yields the strings `"sunrise"` / `"sunset"`. -/
inductive EventKind : Type
  | sunrise : EventKind
  | sunset : EventKind
deriving DecidableEq, Repr

/-- One calendar day, in microseconds. -/
def dayUs : Int := 86400000000

/-- `timedelta(hours=10, minutes=30)` — the fixed sunrise offset (10:30 UTC), in microseconds. -/
def sunriseUs : Int := 37800000000

/-- `timedelta(hours=21, minutes=50)` — the fixed sunset offset (21:50 UTC), in microseconds. -/
def sunsetUs : Int := 78600000000

/-- `datetime.datetime(year=t.year, month=t.month, day=t.day)`: truncation of an
instant to midnight (00:00 UTC) of its calendar day.  `Int.emod` is
nonnegative for a positive modulus, so this is flooring to a day multiple,
which is what calendar truncation does for all dates, pre-epoch included. -/
def midnightOf (t : Int) : Int := t - t % dayUs

/-- The `while dt_current < dt_end` loop of `get_sunrise_and_sunset_times_utc`,
with `cur` the day cursor `dt_current`.  Each iteration yields the sunrise
instant if `dt_current < dt_sunrise < dt_end`, then the sunset instant if
`dt_current < dt_sunset < dt_end`, then advances the cursor by one day. -/
def sunriseSunsetAux (cur tEnd : Int) : List (Int × EventKind) :=
  if cur < tEnd then
    (if cur < cur + sunriseUs ∧ cur + sunriseUs < tEnd then
      [(cur + sunriseUs, EventKind.sunrise)] else []) ++
    (if cur < cur + sunsetUs ∧ cur + sunsetUs < tEnd then
      [(cur + sunsetUs, EventKind.sunset)] else []) ++
    sunriseSunsetAux (cur + dayUs) tEnd
  else []
termination_by (tEnd - cur).toNat
decreasing_by
  simp_wf
  simp only [dayUs] at *
  omega

/-- `get_sunrise_and_sunset_times_utc(t_start, t_end)`: the generator's full
(finite) output as a list, in yield order. -/
def get_sunrise_and_sunset_times_utc (tStart tEnd : Int) : List (Int × EventKind) :=
  sunriseSunsetAux (midnightOf tStart) tEnd

/-- Fuel-indexed version of the enumeration loop: executes at most `fuel`
iterations of the `while` loop.  Used to state termination (the loop needs
only finitely many iterations) and to evaluate concrete instances. -/
def sunriseSunsetFuel : Nat → Int → Int → List (Int × EventKind)
  | 0, _, _ => []
  | fuel + 1, cur, tEnd =>
    if cur < tEnd then
      (if cur < cur + sunriseUs ∧ cur + sunriseUs < tEnd then
        [(cur + sunriseUs, EventKind.sunrise)] else []) ++
      (if cur < cur + sunsetUs ∧ cur + sunsetUs < tEnd then
        [(cur + sunsetUs, EventKind.sunset)] else []) ++
      sunriseSunsetFuel fuel (cur + dayUs) tEnd
    else []

theorem sunriseSunsetAux_eq (cur tEnd : Int) :
    sunriseSunsetAux cur tEnd =
      if cur < tEnd then
        (if cur < cur + sunriseUs ∧ cur + sunriseUs < tEnd then
          [(cur + sunriseUs, EventKind.sunrise)] else []) ++
        (if cur < cur + sunsetUs ∧ cur + sunsetUs < tEnd then
          [(cur + sunsetUs, EventKind.sunset)] else []) ++
        sunriseSunsetAux (cur + dayUs) tEnd
      else [] := by
  rw [sunriseSunsetAux]

/-- With fuel at least the number of days remaining, the fuel-indexed loop
computes the same list as the unbounded loop. -/
theorem sunriseSunsetFuel_eq (fuel : Nat) (cur tEnd : Int)
    (h : tEnd - cur ≤ (fuel : Int) * dayUs) :
    sunriseSunsetFuel fuel cur tEnd = sunriseSunsetAux cur tEnd := by
  induction fuel generalizing cur with
  | zero =>
    rw [sunriseSunsetAux_eq]
    simp only [Nat.cast_zero, zero_mul] at h
    simp only [sunriseSunsetFuel]
    rw [if_neg (by omega)]
  | succ n ih =>
    rw [sunriseSunsetAux_eq]
    simp only [sunriseSunsetFuel]
    by_cases hc : cur < tEnd
    · rw [if_pos hc, if_pos hc, ih (cur + dayUs) (by push_cast at h ⊢; simp only [dayUs] at *; omega)]
    · rw [if_neg hc, if_neg hc]

/-- Membership in a one-element conditional list forces equality with that element. -/
theorem mem_ite_singleton {α : Type} {c : Prop} [Decidable c] {x a : α}
    (h : a ∈ (if c then [x] else [])) : a = x := by
  split at h
  · simpa using h
  · simp at h

/-- Every event yielded by the loop lies strictly between the current day
cursor and the interval end (fuel-indexed version). -/
theorem mem_sunriseSunsetFuel_bounds :
    ∀ (n : Nat) (cur tEnd : Int) (ev : Int × EventKind),
      ev ∈ sunriseSunsetFuel n cur tEnd → cur < ev.1 ∧ ev.1 < tEnd := by
  intro n
  induction n with
  | zero => intro cur tEnd ev h; simp [sunriseSunsetFuel] at h
  | succ n ih =>
    intro cur tEnd ev h
    simp only [sunriseSunsetFuel] at h
    by_cases hlt : cur < tEnd
    · rw [if_pos hlt] at h
      rcases List.mem_append.1 h with h | h
      · rcases List.mem_append.1 h with h | h
        · have hc : cur < cur + sunriseUs ∧ cur + sunriseUs < tEnd := by
            by_contra hc
            rw [if_neg hc] at h
            simp at h
          rw [if_pos hc] at h
          rw [List.mem_singleton] at h
          subst h
          exact hc
        · have hc : cur < cur + sunsetUs ∧ cur + sunsetUs < tEnd := by
            by_contra hc
            rw [if_neg hc] at h
            simp at h
          rw [if_pos hc] at h
          rw [List.mem_singleton] at h
          subst h
          exact hc
      · have := ih (cur + dayUs) tEnd ev h
        simp only [dayUs] at this
        omega
    · rw [if_neg hlt] at h
      simp at h

/-- Same bound for the unbounded loop. -/
theorem mem_sunriseSunsetAux_bounds (cur tEnd : Int) (ev : Int × EventKind)
    (h : ev ∈ sunriseSunsetAux cur tEnd) : cur < ev.1 ∧ ev.1 < tEnd := by
  rw [← sunriseSunsetFuel_eq ((tEnd - cur).toNat + 1) cur tEnd
    (by simp only [dayUs]; push_cast; omega)] at h
  exact mem_sunriseSunsetFuel_bounds _ cur tEnd ev h

/-- Every yielded event is the sunrise or sunset offset of some whole number
of days past the cursor (fuel-indexed version). -/
theorem mem_sunriseSunsetFuel_shape :
    ∀ (n : Nat) (cur tEnd : Int) (ev : Int × EventKind),
      ev ∈ sunriseSunsetFuel n cur tEnd →
      ∃ k : Nat, ev = (cur + (k : Int) * dayUs + sunriseUs, EventKind.sunrise) ∨
                 ev = (cur + (k : Int) * dayUs + sunsetUs, EventKind.sunset) := by
  intro n
  induction n with
  | zero => intro cur tEnd ev h; simp [sunriseSunsetFuel] at h
  | succ n ih =>
    intro cur tEnd ev h
    simp only [sunriseSunsetFuel] at h
    by_cases hlt : cur < tEnd
    · rw [if_pos hlt] at h
      rcases List.mem_append.1 h with h | h
      · rcases List.mem_append.1 h with h | h
        · refine ⟨0, Or.inl ?_⟩
          rw [mem_ite_singleton h]
          norm_num
        · refine ⟨0, Or.inr ?_⟩
          rw [mem_ite_singleton h]
          norm_num
      · obtain ⟨k, hk⟩ := ih (cur + dayUs) tEnd ev h
        refine ⟨k + 1, ?_⟩
        rcases hk with hk | hk
        · left; rw [hk]; push_cast; ring_nf
        · right; rw [hk]; push_cast; ring_nf
    · rw [if_neg hlt] at h
      simp at h

/-- Yielded instants are strictly increasing (fuel-indexed version). -/
theorem sunriseSunsetFuel_pairwise :
    ∀ (n : Nat) (cur tEnd : Int),
      List.Pairwise (fun a b : Int × EventKind => a.1 < b.1)
        (sunriseSunsetFuel n cur tEnd) := by
  intro n
  induction n with
  | zero => intro cur tEnd; simp [sunriseSunsetFuel]
  | succ n ih =>
    intro cur tEnd
    simp only [sunriseSunsetFuel]
    by_cases hlt : cur < tEnd
    · rw [if_pos hlt]
      have hrec : ∀ b ∈ sunriseSunsetFuel n (cur + dayUs) tEnd, cur + dayUs < b.1 :=
        fun b hb => (mem_sunriseSunsetFuel_bounds n (cur + dayUs) tEnd b hb).1
      rw [List.append_assoc]
      refine List.pairwise_append.2 ⟨?_, List.pairwise_append.2 ⟨?_, ih _ _, ?_⟩, ?_⟩
      · split_ifs <;> simp
      · split_ifs <;> simp
      · intro a ha b hb
        rw [mem_ite_singleton ha]
        have := hrec b hb
        simp only [dayUs, sunsetUs] at *
        omega
      · intro a ha b hb
        rw [mem_ite_singleton ha]
        rcases List.mem_append.1 hb with hb | hb
        · rw [mem_ite_singleton hb]
          simp only [sunriseUs, sunsetUs]
          omega
        · have := hrec b hb
          simp only [dayUs, sunriseUs] at *
          omega
    · rw [if_neg hlt]
      exact List.Pairwise.nil

/-- Yielded instants are strictly increasing (unbounded loop). -/
theorem sunriseSunsetAux_pairwise (cur tEnd : Int) :
    List.Pairwise (fun a b : Int × EventKind => a.1 < b.1)
      (sunriseSunsetAux cur tEnd) := by
  rw [← sunriseSunsetFuel_eq ((tEnd - cur).toNat + 1) cur tEnd
    (by simp only [dayUs]; push_cast; omega)]
  exact sunriseSunsetFuel_pairwise _ cur tEnd

/-- Shape of yielded events (unbounded loop). -/
theorem mem_sunriseSunsetAux_shape (cur tEnd : Int) (ev : Int × EventKind)
    (h : ev ∈ sunriseSunsetAux cur tEnd) :
    ∃ k : Nat, ev = (cur + (k : Int) * dayUs + sunriseUs, EventKind.sunrise) ∨
               ev = (cur + (k : Int) * dayUs + sunsetUs, EventKind.sunset) := by
  rw [← sunriseSunsetFuel_eq ((tEnd - cur).toNat + 1) cur tEnd
    (by simp only [dayUs]; push_cast; omega)] at h
  exact mem_sunriseSunsetFuel_shape _ cur tEnd ev h

/-- C1 (amended): every event yielded by
`get_sunrise_and_sunset_times_utc(start, end)` has an instant strictly
greater than the midnight (00:00 UTC) of `start`'s calendar day and strictly
less than `end`.  In particular the `end` boundary is exclusive; the `start`
instant itself is not compared against (events at or before `start`, within
`start`'s day, are still yielded). -/
theorem C1_event_bounds (tStart tEnd : Int) (ev : Int × EventKind)
    (h : ev ∈ get_sunrise_and_sunset_times_utc tStart tEnd) :
    midnightOf tStart < ev.1 ∧ ev.1 < tEnd :=
  mem_sunriseSunsetAux_bounds (midnightOf tStart) tEnd ev h

/-- C1 witness: instantiating `C1_event_bounds` on the interval
`[1970-01-01T00:00, 1970-01-02T00:00)` and its yielded sunrise event. -/
theorem C1_event_bounds_witness :
    midnightOf 0 < (37800000000 : Int) ∧ (37800000000 : Int) < 86400000000 :=
  C1_event_bounds 0 86400000000 (37800000000, EventKind.sunrise)
    (by rw [get_sunrise_and_sunset_times_utc, show midnightOf 0 = 0 by decide,
          ← sunriseSunsetFuel_eq 1 0 86400000000 (by decide)]
        decide)

/-- C1 counterexample: with `start = 1970-01-01T10:30:00` (exactly the sunrise
instant) and `end = 1970-01-02T00:00:00`, the sunrise event at `start` is
yielded, so its instant is not strictly greater than `start` — the claimed
strict lower boundary exclusion at `start` does not hold. -/
theorem C1_counterexample :
    ((37800000000 : Int), EventKind.sunrise) ∈
      get_sunrise_and_sunset_times_utc 37800000000 86400000000 ∧
    ¬ ((37800000000 : Int) < (37800000000 : Int)) := by
  constructor
  · rw [get_sunrise_and_sunset_times_utc, show midnightOf 37800000000 = 0 by decide,
      ← sunriseSunsetFuel_eq 1 0 86400000000 (by decide)]
    decide
  · omega

/-- C2 (amended): if `end <= start` and additionally `end` is at or before
10:30 UTC of `start`'s calendar day, the generator yields zero events (and,
being a total function in this embedding, raises no error).  Without the
second condition an inverted interval can still yield events, because the
loop starts at the midnight of `start`'s day, not at `start`. -/
theorem C2_empty_inverted_interval (tStart tEnd : Int)
    (hle : tEnd ≤ tStart) (hsr : tEnd ≤ midnightOf tStart + sunriseUs) :
    get_sunrise_and_sunset_times_utc tStart tEnd = [] := by
  rw [get_sunrise_and_sunset_times_utc, sunriseSunsetAux_eq]
  by_cases h0 : midnightOf tStart < tEnd
  · rw [if_pos h0]
    rw [if_neg (by simp only [sunriseUs] at *; omega)]
    rw [if_neg (by simp only [sunriseUs, sunsetUs] at *; omega)]
    rw [sunriseSunsetAux_eq, if_neg (by simp only [dayUs, sunriseUs] at *; omega)]
    simp
  · rw [if_neg h0]

/-- C2 witness: instantiating `C2_empty_inverted_interval` at
`start = 1970-01-01T12:00`, `end = 1970-01-01T00:00`. -/
theorem C2_empty_inverted_interval_witness :
    get_sunrise_and_sunset_times_utc 43200000000 0 = [] :=
  C2_empty_inverted_interval 43200000000 0 (by decide) (by decide)

/-- C2 counterexample: `start = 1970-01-01T12:00`, `end = 1970-01-01T11:00`
has `end < start`, yet the generator still yields the 10:30 sunrise event of
`start`'s day, so the output is not empty. -/
theorem C2_counterexample :
    (39600000000 : Int) < 43200000000 ∧
    get_sunrise_and_sunset_times_utc 43200000000 39600000000 ≠ [] := by
  constructor
  · omega
  · rw [get_sunrise_and_sunset_times_utc, show midnightOf 43200000000 = 0 by decide,
      ← sunriseSunsetFuel_eq 1 0 39600000000 (by decide)]
    decide

/-- The full two-events-per-day output for `n` consecutive days starting at
day-cursor `cur`. -/
def expectedEvents : Int → Nat → List (Int × EventKind)
  | _, 0 => []
  | cur, n + 1 =>
    (cur + sunriseUs, EventKind.sunrise) :: (cur + sunsetUs, EventKind.sunset) ::
      expectedEvents (cur + dayUs) n

/-- The alternating kind pattern sunrise, sunset, sunrise, sunset, … of
length `2 * n`. -/
def altKinds : Nat → List EventKind
  | 0 => []
  | n + 1 => EventKind.sunrise :: EventKind.sunset :: altKinds n

theorem expectedEvents_length : ∀ (n : Nat) (cur : Int),
    (expectedEvents cur n).length = 2 * n := by
  intro n
  induction n with
  | zero => intro cur; rfl
  | succ n ih =>
    intro cur
    simp only [expectedEvents, List.length_cons, ih (cur + dayUs)]
    omega

theorem expectedEvents_kinds : ∀ (n : Nat) (cur : Int),
    (expectedEvents cur n).map Prod.snd = altKinds n := by
  intro n
  induction n with
  | zero => intro cur; rfl
  | succ n ih =>
    intro cur
    simp only [expectedEvents, List.map_cons, altKinds, ih (cur + dayUs)]

theorem expectedEvents_mem_lb : ∀ (n : Nat) (cur : Int) (ev : Int × EventKind),
    ev ∈ expectedEvents cur n → cur < ev.1 := by
  intro n
  induction n with
  | zero => intro cur ev h; simp [expectedEvents] at h
  | succ n ih =>
    intro cur ev h
    simp only [expectedEvents, List.mem_cons] at h
    rcases h with h | h | h
    · subst h; simp only [sunriseUs]; omega
    · subst h; simp only [sunsetUs]; omega
    · have := ih (cur + dayUs) ev h
      simp only [dayUs] at this
      omega

theorem expectedEvents_pairwise : ∀ (n : Nat) (cur : Int),
    List.Pairwise (fun a b : Int × EventKind => a.1 < b.1) (expectedEvents cur n) := by
  intro n
  induction n with
  | zero => intro cur; simp [expectedEvents]
  | succ n ih =>
    intro cur
    simp only [expectedEvents]
    refine List.pairwise_cons.2 ⟨?_, List.pairwise_cons.2 ⟨?_, ih (cur + dayUs)⟩⟩
    · intro b hb
      rcases List.mem_cons.1 hb with hb | hb
      · subst hb; simp only [sunriseUs, sunsetUs]; omega
      · have := expectedEvents_mem_lb n (cur + dayUs) b hb
        simp only [dayUs, sunriseUs] at *
        omega
    · intro b hb
      have := expectedEvents_mem_lb n (cur + dayUs) b hb
      simp only [dayUs, sunsetUs] at *
      omega

/-- If the interval covers `n + 1` whole days from the cursor, with the end
strictly past the last day's sunset and at most the following midnight, the
loop yields the full two-events-per-day list. -/
theorem sunriseSunsetAux_full_window :
    ∀ (n : Nat) (cur tEnd : Int),
      cur + (n : Int) * dayUs + sunsetUs < tEnd →
      tEnd ≤ cur + ((n : Int) + 1) * dayUs →
      sunriseSunsetAux cur tEnd = expectedEvents cur (n + 1) := by
  intro n
  induction n with
  | zero =>
    intro cur tEnd h1 h2
    simp only [Nat.cast_zero, zero_mul, add_zero, zero_add, one_mul] at h1 h2
    rw [sunriseSunsetAux_eq]
    rw [if_pos (by simp only [sunsetUs] at h1; omega)]
    rw [if_pos (by simp only [sunriseUs, sunsetUs] at *; omega)]
    rw [if_pos (by simp only [sunsetUs] at *; omega)]
    rw [sunriseSunsetAux_eq, if_neg (by simp only [dayUs, sunsetUs] at *; omega)]
    simp [expectedEvents]
  | succ n ih =>
    intro cur tEnd h1 h2
    push_cast at h1 h2
    rw [sunriseSunsetAux_eq]
    rw [if_pos (by simp only [dayUs, sunsetUs] at h1 h2; omega)]
    rw [if_pos (by simp only [dayUs, sunriseUs, sunsetUs] at h1 h2 ⊢; omega)]
    rw [if_pos (by simp only [dayUs, sunriseUs, sunsetUs] at h1 h2 ⊢; omega)]
    rw [ih (cur + dayUs) tEnd (by push_cast; simp only [dayUs, sunsetUs] at h1 h2 ⊢; omega)
      (by push_cast; simp only [dayUs, sunsetUs] at h1 h2 ⊢; omega)]
    simp [expectedEvents]

/-- C3 (amended): for an interval whose start lies at or before 10:30 UTC of
its calendar day and whose end lies strictly after 21:50 UTC of the last
covered day (and at most the following midnight), covering `N + 1` calendar
days, the generator yields exactly `2 * (N + 1)` events, alternating
sunrise/sunset starting with sunrise, with strictly increasing instants.
(The original claim's "end at or after 21:50" fails at exact equality, where
the last sunset is excluded by the strict comparison.) -/
theorem C3_full_days_count (N : Nat) (tStart tEnd : Int)
    (hstart : tStart ≤ midnightOf tStart + sunriseUs)
    (hend1 : midnightOf tStart + (N : Int) * dayUs + sunsetUs < tEnd)
    (hend2 : tEnd ≤ midnightOf tStart + ((N : Int) + 1) * dayUs) :
    (get_sunrise_and_sunset_times_utc tStart tEnd).length = 2 * (N + 1) ∧
    (get_sunrise_and_sunset_times_utc tStart tEnd).map Prod.snd = altKinds (N + 1) ∧
    List.Pairwise (fun a b : Int × EventKind => a.1 < b.1)
      (get_sunrise_and_sunset_times_utc tStart tEnd) := by
  rw [get_sunrise_and_sunset_times_utc,
    sunriseSunsetAux_full_window N (midnightOf tStart) tEnd hend1 hend2]
  exact ⟨expectedEvents_length _ _, expectedEvents_kinds _ _, expectedEvents_pairwise _ _⟩

/-- C3 witness: instantiating `C3_full_days_count` on the two-day interval
`[1970-01-01T00:00, 1970-01-03T00:00)`. -/
theorem C3_full_days_count_witness :
    (get_sunrise_and_sunset_times_utc 0 172800000000).length = 2 * (1 + 1) ∧
    (get_sunrise_and_sunset_times_utc 0 172800000000).map Prod.snd = altKinds (1 + 1) ∧
    List.Pairwise (fun a b : Int × EventKind => a.1 < b.1)
      (get_sunrise_and_sunset_times_utc 0 172800000000) :=
  C3_full_days_count 1 0 172800000000 (by decide) (by decide) (by decide)

/-- C3 counterexample: the interval `[1970-01-01T00:00, 1970-01-01T21:50)`
covers one calendar day, with start at or before 10:30 UTC and end at (hence
"at or after") 21:50 UTC of that day; the original claim then demands
`2 * 1 = 2` events, but the sunset at exactly 21:50 is excluded by the strict
comparison, so only one event is yielded. -/
theorem C3_counterexample :
    (0 : Int) ≤ midnightOf 0 + sunriseUs ∧
    midnightOf 0 + sunsetUs ≤ 78600000000 ∧
    (get_sunrise_and_sunset_times_utc 0 78600000000).length ≠ 2 * 1 := by
  refine ⟨by decide, by decide, ?_⟩
  rw [get_sunrise_and_sunset_times_utc, show midnightOf 0 = 0 by decide,
    ← sunriseSunsetFuel_eq 1 0 78600000000 (by decide)]
  decide

theorem emod_midnightOf (t : Int) : midnightOf t % dayUs = 0 := by
  simp only [midnightOf, dayUs]
  omega

/-- Midnight truncation of an instant that is a whole number of days past a
day-aligned base, plus an intra-day offset, recovers the day boundary. -/
theorem midnightOf_offset (base off : Int) (k : Nat) (hbase : base % dayUs = 0)
    (hoff : 0 ≤ off) (hlt : off < dayUs) :
    midnightOf (base + (k : Int) * dayUs + off) = base + (k : Int) * dayUs := by
  simp only [midnightOf, dayUs] at *
  omega

/-- In a strictly increasing event list, at most one element can satisfy a
predicate that pins the instant to a single value. -/
theorem length_filter_le_one (l : List (Int × EventKind)) (p : Int × EventKind → Bool)
    (c : Int)
    (hp : List.Pairwise (fun a b : Int × EventKind => a.1 < b.1) l)
    (hc : ∀ ev ∈ l, p ev = true → ev.1 = c) :
    (l.filter p).length ≤ 1 := by
  induction l with
  | nil => simp
  | cons a l ih =>
    rw [List.pairwise_cons] at hp
    by_cases hpa : p a = true
    · have hnil : l.filter p = [] := by
        refine List.eq_nil_iff_forall_not_mem.2 fun x hx => ?_
        have hxl := List.mem_of_mem_filter hx
        have hpx := List.of_mem_filter hx
        have hxc := hc x (List.mem_cons_of_mem _ hxl) hpx
        have hac := hc a (List.mem_cons_self _ _) hpa
        have hlt := hp.1 x hxl
        omega
      simp [List.filter_cons, hpa, hnil]
    · simp only [List.filter_cons, hpa]
      exact ih hp.2 fun ev hev hpe => hc ev (List.mem_cons_of_mem _ hev) hpe

/-- C4: the yielded sequence is in non-decreasing (in fact strictly
increasing) time order, and for each calendar day `d` at most one sunrise
event and at most one sunset event is yielded. -/
theorem C4_order_and_daily_uniqueness (tStart tEnd d : Int) :
    List.Pairwise (fun a b : Int × EventKind => a.1 ≤ b.1)
      (get_sunrise_and_sunset_times_utc tStart tEnd) ∧
    ((get_sunrise_and_sunset_times_utc tStart tEnd).filter
      (fun ev => decide (midnightOf ev.1 = d ∧ ev.2 = EventKind.sunrise))).length ≤ 1 ∧
    ((get_sunrise_and_sunset_times_utc tStart tEnd).filter
      (fun ev => decide (midnightOf ev.1 = d ∧ ev.2 = EventKind.sunset))).length ≤ 1 := by
  have h0 := emod_midnightOf tStart
  refine ⟨(sunriseSunsetAux_pairwise _ _).imp (fun h => le_of_lt h), ?_, ?_⟩
  · refine length_filter_le_one _ _ (d + sunriseUs) (sunriseSunsetAux_pairwise _ _) ?_
    intro ev hev hpe
    simp only [decide_eq_true_eq] at hpe
    obtain ⟨k, hk | hk⟩ := mem_sunriseSunsetAux_shape (midnightOf tStart) tEnd ev hev
    · subst hk
      have h1 : midnightOf (midnightOf tStart + (k : Int) * dayUs + sunriseUs) = d := hpe.1
      rw [midnightOf_offset (midnightOf tStart) sunriseUs k h0 (by norm_num [sunriseUs])
        (by norm_num [sunriseUs, dayUs])] at h1
      show midnightOf tStart + (k : Int) * dayUs + sunriseUs = d + sunriseUs
      simp only [dayUs, sunriseUs] at h1 ⊢
      omega
    · subst hk
      simp at hpe
  · refine length_filter_le_one _ _ (d + sunsetUs) (sunriseSunsetAux_pairwise _ _) ?_
    intro ev hev hpe
    simp only [decide_eq_true_eq] at hpe
    obtain ⟨k, hk | hk⟩ := mem_sunriseSunsetAux_shape (midnightOf tStart) tEnd ev hev
    · subst hk
      simp at hpe
    · subst hk
      have h1 : midnightOf (midnightOf tStart + (k : Int) * dayUs + sunsetUs) = d := hpe.1
      rw [midnightOf_offset (midnightOf tStart) sunsetUs k h0 (by norm_num [sunsetUs])
        (by norm_num [sunsetUs, dayUs])] at h1
      show midnightOf tStart + (k : Int) * dayUs + sunsetUs = d + sunsetUs
      simp only [dayUs, sunsetUs] at h1 ⊢
      omega

/-- Number of loop iterations that certainly suffices: the whole days from
the day cursor to the interval end, plus one. -/
def loopIterationBound (tStart tEnd : Int) : Nat :=
  (tEnd - midnightOf tStart).toNat / 86400000000 + 1

/-- C10: the enumeration loop terminates — the day cursor advances by one
calendar day per iteration, so running the loop with the explicit finite
iteration budget `loopIterationBound` already produces the full generator
output. -/
theorem C10_loop_terminates (tStart tEnd : Int) :
    sunriseSunsetFuel (loopIterationBound tStart tEnd) (midnightOf tStart) tEnd =
      get_sunrise_and_sunset_times_utc tStart tEnd := by
  rw [get_sunrise_and_sunset_times_utc]
  apply sunriseSunsetFuel_eq
  simp only [loopIterationBound, dayUs]
  omega

/-- numpy's scaling step when casting a `timedelta64` between units
(`cast_timedelta_to_timedelta` in numpy's `datetime.c`): multiply by
`num`, divide by `denom` with C (truncating) division, pre-adjusting a
negative value by `-(denom - 1)` so the conversion floors. -/
def npyCastTimedeltaScale (num denom srcDt : Int) : Int :=
  if srcDt < 0 then Int.tdiv (srcDt * num - (denom - 1)) denom
  else Int.tdiv (srcDt * num) denom

/-- `t_offset.astype("timedelta64[s]")` on a microsecond timedelta:
numpy unit conversion with `num = 1`, `denom = 1000000`.  The subsequent
`.astype(int)` on the resulting int64 seconds is the identity. -/
def usToWholeSeconds (off : Int) : Int := npyCastTimedeltaScale 1 1000000 off

/-- numpy's float→int `astype(int)`: a C cast, truncating toward zero,
modelled on exact rationals. -/
def ratTruncToInt (q : ℚ) : Int := if q < 0 then ⌈q⌉ else ⌊q⌋

/-- `_to_dt64ms(t)` = `np.timedelta64(t, "ms")`: a millisecond count as a
duration in microseconds. -/
def to_dt64ms (n : Int) : Int := n * 1000

/-- The forward transform `time_to_distance(x)` defined inside
`add_approx_distance_axis`: the µs offset `t - t0` is cast to whole seconds
(`astype("timedelta64[s]").astype(int)`), multiplied by the velocity `v` and
divided by the unit scale `s`. -/
def time_to_distance (t0 : Int) (v s : ℚ) (t : Int) : ℚ :=
  ((usToWholeSeconds (t - t0) : Int) : ℚ) * v / s

/-- The inverse transform `distance_to_time(x_dist)` on one element:
`t_offset = x_dist * s / v` seconds, `(t_offset * 1000).astype(int)`
milliseconds (C float→int cast), added to `t0` as a `timedelta64[ms]`. -/
def distance_to_time (t0 : Int) (v s : ℚ) (xDist : ℚ) : Int :=
  t0 + to_dt64ms (ratTruncToInt (xDist * s / v * 1000))

/-- `distance_to_time` as written: it receives a whole batch and has the
explicit empty-batch fast path `if len(x_dist) == 0: return x_dist`
before the element-wise conversion. -/
def distance_to_time_batch (t0 : Int) (v s : ℚ) (xDist : List ℚ) : List ℚ :=
  if xDist.length = 0 then xDist
  else xDist.map fun d => ((distance_to_time t0 v s d : Int) : ℚ)

/-- The only validation error in `add_approx_distance_axis`:
`raise NotImplementedError(units)` for an unsupported unit string. -/
inductive AxisError : Type
  | notImplemented (units : String) : AxisError
deriving DecidableEq

/-- The unit dispatch at the top of `add_approx_distance_axis`. -/
def unitScale (units : String) : Except AxisError ℚ :=
  if units = "m" then Except.ok 1
  else if units = "km" then Except.ok 1000
  else Except.error (AxisError.notImplemented units)

/-- `add_approx_distance_axis(ax, t0, posn=1.2, v=10.0, units="m")`: validates
the unit and produces the forward/inverse transform pair that is registered
on the secondary axis.  The plotting arguments (`ax`, `posn`) and the axis
registration itself are rendering collaborators outside the specified core. -/
def add_approx_distance_axis (t0 : Int) (v : ℚ) (units : String) :
    Except AxisError ((Int → ℚ) × (ℚ → Int)) :=
  (unitScale units).map fun s => (time_to_distance t0 v s, distance_to_time t0 v s)

/-- The forward formula exactly as the spec words it: `((t - t0) in whole
seconds) * v / s` with the elapsed time truncated (toward zero, `Int.tdiv`)
to integer seconds. -/
def timeToDistanceSpec (t0 : Int) (v s : ℚ) (t : Int) : ℚ :=
  ((Int.tdiv (t - t0) 1000000 : Int) : ℚ) * v / s

/-- The inverse formula exactly as the spec words it:
`t0 + round((d * s / v) * 1000) milliseconds`. -/
def distanceToTimeSpec (t0 : Int) (v s : ℚ) (d : ℚ) : Int :=
  t0 + 1000 * round (d * s / v * 1000)

/-- The numpy µs→s cast is floor division by `1000000`. -/
theorem usToWholeSeconds_eq_fdiv (off : Int) :
    usToWholeSeconds off = Int.fdiv off 1000000 := by
  rw [Int.fdiv_eq_ediv _ (by norm_num)]
  simp only [usToWholeSeconds, npyCastTimedeltaScale, mul_one]
  split_ifs with h
  · rw [show off - (1000000 - 1) = -(999999 - off) from by ring, Int.neg_tdiv,
      Int.tdiv_eq_ediv (by omega) (by norm_num)]
    omega
  · rw [Int.tdiv_eq_ediv (by omega) (by norm_num)]

/-- C5 (amended): `time_to_distance` returns `((t - t0) floored to whole
seconds) * v / s`.  The elapsed time is quantized to integer seconds before
scaling — not rounded and not kept at sub-second precision — but by numpy's
flooring cast (toward negative infinity), which coincides with the claimed
truncation exactly when `t0 ≤ t`. -/
theorem C5_forward_truncates_seconds (t0 : Int) (v s : ℚ) (t : Int) :
    time_to_distance t0 v s t = ((Int.fdiv (t - t0) 1000000 : Int) : ℚ) * v / s ∧
    (t0 ≤ t → time_to_distance t0 v s t = timeToDistanceSpec t0 v s t) := by
  constructor
  · rw [time_to_distance, usToWholeSeconds_eq_fdiv]
  · intro h
    rw [time_to_distance, timeToDistanceSpec, usToWholeSeconds_eq_fdiv,
      Int.fdiv_eq_ediv _ (by norm_num), ← Int.tdiv_eq_ediv (by omega) (by norm_num)]

/-- C5 witness: instantiating `C5_forward_truncates_seconds` at
`t0 = 0`, `v = 10`, `s = 1`, `t = 5.5` seconds past `t0`. -/
theorem C5_forward_truncates_seconds_witness :
    time_to_distance 0 10 1 5500000 = timeToDistanceSpec 0 10 1 5500000 :=
  (C5_forward_truncates_seconds 0 10 1 5500000).2 (by decide)

/-- C5 counterexample: at `t = t0 - 0.5 s` (here `t0 = 0`, `t = -500000` µs,
`v = 10`, `s = 1`) the code floors the offset to `-1` s and returns `-10`,
while the claimed truncation toward zero would give `0` s and return `0`. -/
theorem C5_counterexample :
    time_to_distance 0 10 1 (-500000) ≠ timeToDistanceSpec 0 10 1 (-500000) := by
  have h1 : Int.fdiv (-500000 - 0) 1000000 = -1 := by decide
  have h2 : Int.tdiv (-500000 - 0) 1000000 = 0 := by decide
  rw [time_to_distance, timeToDistanceSpec, usToWholeSeconds_eq_fdiv, h1, h2]
  norm_num

/-- C6 (amended): `distance_to_time` returns
`t0 + ((d * s / v) * 1000 truncated toward zero) milliseconds` — the
millisecond offset comes from numpy's C float→int cast, i.e. truncation, not
rounding; it agrees with the spec's rounding formula whenever the scaled
offset is nonnegative with fractional part below one half. -/
theorem C6_inverse_truncates_ms (t0 : Int) (v s : ℚ) (d : ℚ) :
    distance_to_time t0 v s d = t0 + 1000 * ratTruncToInt (d * s / v * 1000) ∧
    (0 ≤ d * s / v * 1000 → Int.fract (d * s / v * 1000) < 1/2 →
      distance_to_time t0 v s d = distanceToTimeSpec t0 v s d) := by
  constructor
  · rw [distance_to_time, to_dt64ms]
    ring
  · intro h1 h2
    rw [distance_to_time, distanceToTimeSpec, to_dt64ms]
    have hq : ratTruncToInt (d * s / v * 1000) = ⌊d * s / v * 1000⌋ := by
      rw [ratTruncToInt, if_neg (not_lt.2 h1)]
    have hr : round (d * s / v * 1000) = ⌊d * s / v * 1000⌋ := by
      rw [round_eq]
      have hle := Int.floor_le (d * s / v * 1000)
      have hfr : d * s / v * 1000 - ⌊d * s / v * 1000⌋ < 1/2 := by
        rw [← Int.self_sub_floor] at h2
        exact h2
      rw [Int.floor_eq_iff]
      constructor
      · linarith
      · push_cast
        linarith
    rw [hq, hr]
    ring

/-- C6 witness: instantiating `C6_inverse_truncates_ms` at
`t0 = 0`, `v = 1`, `s = 1`, `d = 1/4` (offset 250 ms, fractional part 0). -/
theorem C6_inverse_truncates_ms_witness :
    distance_to_time 0 1 1 (1/4) = distanceToTimeSpec 0 1 1 (1/4) :=
  (C6_inverse_truncates_ms 0 1 1 (1/4)).2 (by norm_num)
    (by norm_num [Int.fract])

/-- C6 counterexample: at `d = 875/512 = 1.708984375` (exactly representable
as a double), `v = 1`, `s = 1`, `t0 = 0`, the scaled offset is
`1708.984375` ms; the code truncates to `1708` ms while the spec's rounding
formula gives `1709` ms. -/
theorem C6_counterexample :
    distance_to_time 0 1 1 (875/512) ≠ distanceToTimeSpec 0 1 1 (875/512) := by
  rw [distance_to_time, distanceToTimeSpec, to_dt64ms, ratTruncToInt, round_eq]
  rw [if_neg (by norm_num)]
  norm_num

/-- C7 (amended): with `v = 10`, unit `m` and `t0 ≤ t`, the round trip
`distance_to_time(time_to_distance(t))` equals `t0` plus `(t - t0)` floored
to whole seconds.  This equals `t` truncated to whole seconds exactly when
`t0` itself lies on a whole-second boundary; for a fractional `t0` the
round trip preserves `t0`'s sub-second phase instead. -/
theorem C7_round_trip (t0 t : Int) (h : t0 ≤ t) :
    distance_to_time t0 10 1 (time_to_distance t0 10 1 t) =
      t0 + 1000000 * Int.fdiv (t - t0) 1000000 ∧
    (t0 % 1000000 = 0 →
      distance_to_time t0 10 1 (time_to_distance t0 10 1 t) =
        1000000 * Int.fdiv t 1000000) := by
  have key : distance_to_time t0 10 1 (time_to_distance t0 10 1 t) =
      t0 + 1000000 * Int.fdiv (t - t0) 1000000 := by
    rw [time_to_distance, usToWholeSeconds_eq_fdiv]
    set q : Int := Int.fdiv (t - t0) 1000000 with hq
    rw [distance_to_time, to_dt64ms]
    have harg : (q : ℚ) * 10 / 1 * 1 / 10 * 1000 = ((1000 * q : Int) : ℚ) := by
      push_cast
      ring
    rw [harg]
    have htr : ratTruncToInt ((1000 * q : Int) : ℚ) = 1000 * q := by
      rw [ratTruncToInt]
      split_ifs with hneg
      · exact Int.ceil_intCast _
      · exact Int.floor_intCast _
    rw [htr]
    ring
  refine ⟨key, fun hm => ?_⟩
  rw [key, Int.fdiv_eq_ediv _ (by norm_num), Int.fdiv_eq_ediv _ (by norm_num)]
  omega

/-- C7 witness: instantiating `C7_round_trip` at `t0 = 0`,
`t = 1.7` seconds. -/
theorem C7_round_trip_witness :
    distance_to_time 0 10 1 (time_to_distance 0 10 1 1700000) =
      1000000 * Int.fdiv 1700000 1000000 :=
  (C7_round_trip 0 1700000 (by decide)).2 (by decide)

/-- C7 counterexample: with the fractional reference instant
`t0 = 0.5 s` (500000 µs) and `t = 1.7 s`, the round trip returns `1.5 s`
(1500000 µs), not `t` truncated to whole seconds (`1.0 s`). -/
theorem C7_counterexample :
    (500000 : Int) ≤ 1700000 ∧
    distance_to_time 500000 10 1 (time_to_distance 500000 10 1 1700000) ≠
      1000000 * Int.tdiv 1700000 1000000 := by
  refine ⟨by decide, ?_⟩
  have e1 : usToWholeSeconds (1700000 - 500000) = 1 := by decide
  have e2 : Int.tdiv 1700000 1000000 = 1 := by decide
  rw [time_to_distance, e1, distance_to_time, to_dt64ms, ratTruncToInt, e2]
  rw [if_neg (by norm_num)]
  norm_num

/-- C8 (amended): `add_approx_distance_axis` validates only the unit string —
anything other than `"m"` / `"km"` raises `NotImplementedError(units)` — and
performs no zero-velocity check: with `v = 0` the constructor succeeds and
the forward transform returns `0` for every input instead of raising, since
only the inverse direction divides by `v`. -/
theorem C8_no_zero_velocity_check (t0 : Int) (v : ℚ) (units : String) (t : Int) :
    (units ≠ "m" → units ≠ "km" →
      add_approx_distance_axis t0 v units =
        Except.error (AxisError.notImplemented units)) ∧
    time_to_distance t0 0 1 t = 0 ∧
    (add_approx_distance_axis t0 0 "m").toOption.isSome = true := by
  refine ⟨fun h1 h2 => ?_, ?_, rfl⟩
  · rw [add_approx_distance_axis, unitScale, if_neg h1, if_neg h2]
    rfl
  · rw [time_to_distance]
    simp

/-- C8 witness: instantiating `C8_no_zero_velocity_check` with the
unsupported unit string `"ft"`. -/
theorem C8_no_zero_velocity_check_witness :
    add_approx_distance_axis 0 0 "ft" =
      Except.error (AxisError.notImplemented "ft") :=
  (C8_no_zero_velocity_check 0 0 "ft" 0).1 (by decide) (by decide)

/-- C8 counterexample: with `v = 0` and unit `"m"` the constructor succeeds
(no `DivisionByZero`/`InvalidArgument` is raised), and the forward transform
at `t = 5 s` returns the value `0` rather than raising. -/
theorem C8_counterexample :
    (add_approx_distance_axis 0 0 "m").toOption.isSome = true ∧
    time_to_distance 0 0 1 5000000 = 0 := by
  exact ⟨rfl, by rw [time_to_distance]; simp⟩

/-- C9: `distance_to_time` on the empty batch takes the explicit
`len(x_dist) == 0` fast path and returns the empty input unchanged — a
no-op pass-through, not an error. -/
theorem C9_empty_batch (t0 : Int) (v s : ℚ) :
    distance_to_time_batch t0 v s [] = [] := rfl
